import Mathlib

/-!
Formal model of the boilerplate-sync engine: configuration normalization
(`normalizeSources`), glob-pattern detection and expansion
(`isGlobPattern`, `expandGlobPatterns`), the per-file sync step
(`syncFile`), the orchestrator loop (`processConfigs`, `syncFiles`),
result aggregation (`buildSummary`), and remote tree listing with the
branch/tag/commit ref fallback chain (`listFilesMatchingGlob`).

External collaborators (the GitHub API client, the `minimatch` library,
the filesystem) are modelled as explicit environments of pure functions;
the engine's own control flow is transcribed from the TypeScript source.
Network and filesystem calls performed by the engine are recorded as an
explicit `Event` trace so that call-count properties (for example "no
fetch is performed") can be stated.
-/

namespace BoilerplateSync

/-- A `file_pairs` entry: explicit local path with optional source path. -/
structure FileMapping where
  local_path : String
  source_path : Option String
  deriving DecidableEq, Repr

/-- One validated source configuration entry (`SourceConfig` in the source).
`sourceToken` models the `source-token` field. -/
structure SourceConfig where
  source : String
  ref : Option String
  sourceToken : Option String
  default_files : Option (List String)
  file_pairs : Option (List FileMapping)
  deriving DecidableEq, Repr

/-- A flat, normalized sync task (`NormalizedFileSyncConfig` in the source). -/
structure NormalizedFileSyncConfig where
  local_path : String
  source_path : String
  source : String
  ref : Option String
  sourceToken : Option String
  expandedFrom : Option String := none
  deriving DecidableEq, Repr

/-- The task built from one `default_files` entry: local and source path
are both the listed path, repository/ref/token are the source's. -/
def identityConfig (source : SourceConfig) (filePath : String) :
    NormalizedFileSyncConfig :=
  { local_path := filePath
    source_path := filePath
    source := source.source
    ref := source.ref
    sourceToken := source.sourceToken }

/-- The task built from one `file_pairs` entry: `source_path` defaults to
`local_path` when absent (the `??` in the source). -/
def pairConfig (source : SourceConfig) (file : FileMapping) :
    NormalizedFileSyncConfig :=
  { local_path := file.local_path
    source_path := file.source_path.getD file.local_path
    source := source.source
    ref := source.ref
    sourceToken := source.sourceToken }

/-- `normalizeSources`: the imperative loop from the source, transcribed as
left folds pushing onto an accumulator. For each source, `default_files`
entries are pushed first, then `file_pairs` entries. -/
def normalizeSources (sources : List SourceConfig) :
    List NormalizedFileSyncConfig :=
  sources.foldl
    (fun normalized source =>
      let afterDefaults :=
        match source.default_files with
        | some files =>
            files.foldl (fun acc filePath => acc ++ [identityConfig source filePath]) normalized
        | none => normalized
      match source.file_pairs with
      | some pairs =>
          pairs.foldl (fun acc file => acc ++ [pairConfig source file]) afterDefaults
      | none => afterDefaults)
    []

/-- The normalizer as the specification describes it: the concatenation, in
listed source order, of one task per file entry, with every identity entry
before every path-pair entry within a source, each sub-list in listed
order; an identity entry yields a task whose local and remote path are
both the entry, a path-pair entry yields the entry's local path and its
remote path when present (else the local path), and every task carries
its source's repository, ref and per-source credential. -/
def specNormalize : List SourceConfig → List NormalizedFileSyncConfig
  | [] => []
  | s :: rest =>
      (s.default_files.getD []).map (fun entry =>
        { local_path := entry
          source_path := entry
          source := s.source
          ref := s.ref
          sourceToken := s.sourceToken })
        ++ (s.file_pairs.getD []).map (fun entry =>
          { local_path := entry.local_path
            source_path := entry.source_path.getD entry.local_path
            source := s.source
            ref := s.ref
            sourceToken := s.sourceToken })
        ++ specNormalize rest

/-- `isGlobPattern`: true iff the path contains one of the glob
metacharacters matched by the regex `[*?[\]\x7b\x7d]` in the source. -/
def isGlobPattern (path : String) : Bool :=
  path.toList.any fun c =>
    c = '*' ∨ c = '?' ∨ c = '[' ∨ c = ']' ∨ c = '\x7b' ∨ c = '\x7d'

/-- One remote fetch outcome (`FetchResult` in the source). -/
structure FetchResult where
  content : String
  sha : String
  resolvedRef : String
  deriving DecidableEq, Repr

/-- A recorded external call made by the engine: a per-task content fetch,
a local read, a local write, or a glob tree listing. -/
inductive Event where
  | fetchCall (source : String) (source_path : String) (ref : Option String) (token : String)
  | readCall (path : String)
  | writeCall (path : String) (content : String)
  | listGlobCall (owner : String) (repo : String) (pattern : String)
      (ref : Option String) (token : String)
  deriving DecidableEq, Repr

/-- The type of the `listFilesMatchingGlob` collaborator as seen by
`expandGlobPatterns`: owner, repo, pattern, ref, token to either a thrown
error message or the matched paths. -/
abbrev ListFilesFn :=
  String → String → String → Option String → String → Except String (List String)

/-- Split a character list at a separator, keeping empty segments, as
JavaScript `String.prototype.split` does. -/
def splitCharsAux (sep : Char) : List Char → List Char → List String
  | [], acc => [String.mk acc.reverse]
  | c :: cs, acc =>
      if c = sep then String.mk acc.reverse :: splitCharsAux sep cs []
      else splitCharsAux sep cs (c :: acc)

/-- `source.split('/')` from the source. -/
def splitOnSlash (s : String) : List String :=
  splitCharsAux '/' s.toList []

/-- The body of the `expandGlobPatterns` loop for one config: a non-glob
`source_path` is kept as-is; otherwise the pattern is expanded with the
per-source token falling back to the run token, a thrown error or an empty
match list keeps the original config, and each matched path otherwise
yields a copy of the config with both paths replaced by the match. -/
def expandOne (listFiles : ListFilesFn) (githubToken : String)
    (config : NormalizedFileSyncConfig) :
    List NormalizedFileSyncConfig × List Event :=
  if isGlobPattern config.source_path = false then
    ([config], [])
  else
    let parts := splitOnSlash config.source
    let owner := parts.headD ""
    let repo := (parts.drop 1).headD ""
    let token := config.sourceToken.getD githubToken
    let ev := Event.listGlobCall owner repo config.source_path config.ref token
    match listFiles owner repo config.source_path config.ref token with
    | .error _ => ([config], [ev])
    | .ok [] => ([config], [ev])
    | .ok matchingFiles =>
        (matchingFiles.map fun filePath =>
          { config with
              local_path := filePath
              source_path := filePath
              expandedFrom := some config.source_path },
         [ev])

/-- `expandGlobPatterns`: the source's loop over all normalized configs,
pushing each config's expansion onto the accumulator in order. -/
def expandGlobPatterns (listFiles : ListFilesFn)
    (configs : List NormalizedFileSyncConfig) (githubToken : String) :
    List NormalizedFileSyncConfig × List Event :=
  configs.foldl
    (fun expanded config =>
      let r := expandOne listFiles githubToken config
      (expanded.1 ++ r.1, expanded.2 ++ r.2))
    ([], [])

/-- Outcome of the raw `fs.readFile` call: content, a not-found error
(`ENOENT`), or any other I/O error. -/
inductive FsReadOutcome where
  | success (content : String)
  | enoent
  | ioError (msg : String)
  deriving DecidableEq, Repr

/-- The filesystem and remote-source collaborators used by the per-file
sync step. `accessOk` models `fs.access` succeeding; `readRaw` models
`fs.readFile`; `writeRaw` models `mkdir` + `fs.writeFile` and may fail;
`fetch` models `createGitHubSource(source, source_path, ref).fetch(token)`
and may throw with a message. -/
structure SyncEnv where
  accessOk : String → Bool
  readRaw : String → FsReadOutcome
  writeRaw : String → String → Except String Unit
  fetch : String → String → Option String → String → Except String FetchResult

/-- `fileExists`: `fs.access` wrapped in try/catch. -/
def fileExists (env : SyncEnv) (filePath : String) : Bool :=
  env.accessOk filePath

/-- `readFile`: returns `none` when the file does not exist (`ENOENT`) and
rethrows any other read error. -/
def readFile (env : SyncEnv) (filePath : String) : Except String (Option String) :=
  match env.readRaw filePath with
  | .success c => .ok (some c)
  | .enoent => .ok none
  | .ioError e => .error e

/-- Status of one sync result. -/
inductive SyncStatus where
  | updated
  | created
  | skipped
  | failed
  deriving DecidableEq, Repr

/-- Outcome of one task (`SyncResult` in the source). -/
structure SyncResult where
  config : NormalizedFileSyncConfig
  status : SyncStatus
  error : Option String := none
  resolvedRef : Option String := none
  isNew : Option Bool := none
  deriving DecidableEq, Repr

/-- `syncFile`: the per-task step. Missing local file with `createMissing`
off short-circuits to `skipped` before any fetch; then the remote content
is fetched with the per-source token falling back to the run token; a
local copy equal to the fetched content yields `skipped` with no write;
otherwise the content is written and classified `created`/`updated` by
prior existence. Every thrown error (fetch, read, write) is caught and
becomes a `failed` result carrying the message. The second component is
the trace of external calls performed. -/
def syncFile (env : SyncEnv) (config : NormalizedFileSyncConfig)
    (fallbackToken : String) (createMissing : Bool) :
    SyncResult × List Event :=
  let token := config.sourceToken.getD fallbackToken
  let exOk := fileExists env config.local_path
  if exOk = false ∧ createMissing = false then
    ({ config := config
       status := .skipped
       error := some "Project file does not exist and create-missing is disabled" },
     [])
  else
    let fetchEv := Event.fetchCall config.source config.source_path config.ref token
    match env.fetch config.source config.source_path config.ref token with
    | .error message =>
        ({ config := config, status := .failed, error := some message }, [fetchEv])
    | .ok fetchResult =>
        let newContent := fetchResult.content
        let readEvs := if exOk then [Event.readCall config.local_path] else []
        match (if exOk then readFile env config.local_path else .ok none) with
        | .error message =>
            ({ config := config, status := .failed, error := some message },
             fetchEv :: readEvs)
        | .ok existingContent =>
            if existingContent = some newContent then
              ({ config := config
                 status := .skipped
                 resolvedRef := some fetchResult.resolvedRef },
               fetchEv :: readEvs)
            else
              let writeEv := Event.writeCall config.local_path newContent
              match env.writeRaw config.local_path newContent with
              | .error message =>
                  ({ config := config, status := .failed, error := some message },
                   fetchEv :: readEvs ++ [writeEv])
              | .ok _ =>
                  let isNew := existingContent = none
                  ({ config := config
                     status := if isNew then .created else .updated
                     resolvedRef := some fetchResult.resolvedRef
                     isNew := some isNew },
                   fetchEv :: readEvs ++ [writeEv])

/-- The orchestrator loop of `syncFiles`: process configs in order,
appending each result; when `failOnError` is set and the just-produced
status is `failed`, stop without attempting later configs. -/
def processConfigs (env : SyncEnv) (configs : List NormalizedFileSyncConfig)
    (githubToken : String) (createMissing : Bool) (failOnError : Bool) :
    List SyncResult × List Event :=
  match configs with
  | [] => ([], [])
  | config :: rest =>
      let r := syncFile env config githubToken createMissing
      if failOnError = true ∧ r.1.status = .failed then
        ([r.1], r.2)
      else
        let rec' := processConfigs env rest githubToken createMissing failOnError
        (r.1 :: rec'.1, r.2 ++ rec'.2)

/-- The categorized aggregate (`SyncSummary` in the source). -/
structure SyncSummary where
  updated : List SyncResult
  created : List SyncResult
  skipped : List SyncResult
  failed : List SyncResult
  total : Nat
  hasChanges : Bool
  allFailed : Bool
  deriving DecidableEq, Repr

/-- The aggregation at the end of `syncFiles`: filter the result list by
each status, `total` is the result count, `hasChanges` is set when
anything was updated or created, `allFailed` when every result failed and
there was at least one. -/
def buildSummary (results : List SyncResult) : SyncSummary :=
  let updated := results.filter fun r => r.status == SyncStatus.updated
  let created := results.filter fun r => r.status == SyncStatus.created
  let skipped := results.filter fun r => r.status == SyncStatus.skipped
  let failed := results.filter fun r => r.status == SyncStatus.failed
  { updated := updated
    created := created
    skipped := skipped
    failed := failed
    total := results.length
    hasChanges := decide (0 < updated.length) || decide (0 < created.length)
    allFailed := (failed.length == results.length) && decide (0 < results.length) }

/-- The validated action inputs consumed by `syncFiles`. -/
structure ActionInputs where
  sources : List SourceConfig
  githubToken : String
  createMissing : Bool
  failOnError : Bool

/-- `syncFiles`: normalize, expand glob patterns, run the per-file loop,
and aggregate the summary. -/
def syncFiles (env : SyncEnv) (listFiles : ListFilesFn) (inputs : ActionInputs) :
    SyncSummary × List Event :=
  let normalizedConfigs := normalizeSources inputs.sources
  let expanded := expandGlobPatterns listFiles normalizedConfigs inputs.githubToken
  let pr := processConfigs env expanded.1 inputs.githubToken
      inputs.createMissing inputs.failOnError
  (buildSummary pr.1, expanded.2 ++ pr.2)

/-- A git commit as returned by `getCommit`: only its tree sha is used. -/
structure GitCommit where
  treeSha : String
  deriving DecidableEq, Repr

/-- One entry of a recursive repository tree listing. -/
structure TreeItem where
  type : String
  path : Option String
  deriving DecidableEq, Repr

/-- The GitHub API collaborator used by the tree-listing code. Arguments
are owner, repo, the ref name or sha, and the token; `getRefHeads` and
`getRefTags` model `git.getRef` on `heads/...` and `tags/...`,
`reposGetDefaultBranch` models `repos.get().default_branch`, and
`minimatch` (path, pattern) models the external matcher library. -/
structure GithubApi where
  reposGetDefaultBranch : String → String → String → Except String String
  getRefHeads : String → String → String → String → Except String String
  getRefTags : String → String → String → String → Except String String
  getCommit : String → String → String → String → Except String GitCommit
  getTree : String → String → String → String → Except String (List TreeItem)
  minimatch : String → String → Bool

/-- The cache of default-branch lookups, keyed by `owner/repo`. -/
abbrev BranchCache := List (String × String)

/-- First value stored under a key, mirroring `Map.get`. -/
def cacheLookup (cache : BranchCache) (key : String) : Option String :=
  match cache with
  | [] => none
  | (k, v) :: rest => if k = key then some v else cacheLookup rest key

/-- `getDefaultBranch`: consult the cache under `owner/repo`, else call the
API and store the result. Returns the (possibly thrown) outcome together
with the cache afterwards. -/
def getDefaultBranch (api : GithubApi) (cache : BranchCache)
    (owner repo token : String) : Except String String × BranchCache :=
  let cacheKey := owner ++ "/" ++ repo
  match cacheLookup cache cacheKey with
  | some cached => (.ok cached, cache)
  | none =>
      match api.reposGetDefaultBranch owner repo token with
      | .error e => (.error e, cache)
      | .ok branch => (.ok branch, cache ++ [(cacheKey, branch)])

/-- The `.catch` chain on the ref lookup: try the ref as a branch, on
failure as a tag, on failure fetch it as a commit and use its tree sha. -/
def resolveTreeSha (api : GithubApi) (owner repo resolvedRef token : String) :
    Except String String :=
  match api.getRefHeads owner repo resolvedRef token with
  | .ok sha => .ok sha
  | .error _ =>
      match api.getRefTags owner repo resolvedRef token with
      | .ok sha => .ok sha
      | .error _ =>
          match api.getCommit owner repo resolvedRef token with
          | .ok commit => .ok commit.treeSha
          | .error e => .error e

/-- The filtering loop over the recursive tree: keep paths of blob entries
(a missing or empty path is skipped, as the truthiness test in the source
does) that the matcher accepts, in tree order. -/
def matchTree (api : GithubApi) (pattern : String) (tree : List TreeItem) :
    List String :=
  tree.foldl
    (fun matchingFiles item =>
      match item.path with
      | some p =>
          if item.type == "blob" && p != "" && api.minimatch p pattern then
            matchingFiles ++ [p]
          else matchingFiles
      | none => matchingFiles)
    []

/-- Insert a string into an already sorted list. -/
def insertString (s : String) : List String → List String
  | [] => [s]
  | x :: xs => if x < s then x :: insertString s xs else s :: x :: xs

/-- Ascending lexicographic sort, modelling `Array.prototype.sort()`. -/
def sortStrings : List String → List String
  | [] => []
  | x :: xs => insertString x (sortStrings xs)

/-- Fetch the recursive tree at `sha` and return the sorted matches. -/
def listTreeMatches (api : GithubApi) (owner repo pattern sha token : String) :
    Except String (List String) :=
  match api.getTree owner repo sha token with
  | .error e => .error e
  | .ok tree => .ok (sortStrings (matchTree api pattern tree))

/-- `listFilesMatchingGlob`: resolve the ref (default branch when absent,
through the cache), resolve it to a tree sha via the branch → tag → commit
fallback chain, list the tree recursively, and return the sorted matching
blob paths. The second component is the cache afterwards. -/
def listFilesMatchingGlob (api : GithubApi) (cache : BranchCache)
    (owner repo pattern : String) (ref : Option String) (token : String) :
    Except String (List String) × BranchCache :=
  let resolved : Except String String × BranchCache :=
    match ref with
    | some r => (.ok r, cache)
    | none => getDefaultBranch api cache owner repo token
  match resolved.1 with
  | .error e => (.error e, resolved.2)
  | .ok resolvedRef =>
      match resolveTreeSha api owner repo resolvedRef token with
      | .error e => (.error e, resolved.2)
      | .ok sha => (listTreeMatches api owner repo pattern sha token, resolved.2)

/-- Structural form of the expansion loop: each config's expansion is
appended in order. -/
def expandAll (listFiles : ListFilesFn) (githubToken : String) :
    List NormalizedFileSyncConfig → List NormalizedFileSyncConfig × List Event
  | [] => ([], [])
  | c :: cs =>
      ((expandOne listFiles githubToken c).1 ++ (expandAll listFiles githubToken cs).1,
       (expandOne listFiles githubToken c).2 ++ (expandAll listFiles githubToken cs).2)

/-- A source whose only file entry is a path pair whose remote path is a
glob pattern. -/
def pairGlobSource : SourceConfig :=
  { source := "octo/boiler"
    ref := none
    sourceToken := none
    default_files := none
    file_pairs := some [{ local_path := "docs/a.md", source_path := some "docs/*.md" }] }

/-- A tree-listing collaborator that matches two files against the pattern
`docs/*.md`. -/
def lfDemo : ListFilesFn := fun _ _ pat _ _ =>
  if pat = "docs/*.md" then .ok ["docs/b.md", "docs/c.md"] else .ok []

/-- A tree-listing collaborator that always throws. -/
def lfErr : ListFilesFn := fun _ _ _ _ _ => .error "boom"

/-- A normalized task whose remote path is a glob pattern. -/
def cfgGlob : NormalizedFileSyncConfig :=
  { local_path := "*.md"
    source_path := "*.md"
    source := "o/r"
    ref := some "main"
    sourceToken := none }

/-- A plain normalized task. -/
def cfgPlain : NormalizedFileSyncConfig :=
  { local_path := "one.md"
    source_path := "one.md"
    source := "o/r"
    ref := some "main"
    sourceToken := none }

/-- Another plain normalized task. -/
def cfgPlain2 : NormalizedFileSyncConfig :=
  { local_path := "two.md"
    source_path := "two.md"
    source := "o/r"
    ref := some "main"
    sourceToken := none }

/-- A fetched content value used in concrete runs. -/
def fr0 : FetchResult := { content := "same", sha := "s", resolvedRef := "main" }

/-- An environment where every file exists with content equal to the
fetched content. -/
def envAllGood : SyncEnv :=
  { accessOk := fun _ => true
    readRaw := fun _ => .success "same"
    writeRaw := fun _ _ => .ok ()
    fetch := fun _ _ _ _ => .ok fr0 }

/-- An environment where no local file exists; its fetch collaborator
throws if it is ever consulted. -/
def envMissing : SyncEnv :=
  { accessOk := fun _ => false
    readRaw := fun _ => .enoent
    writeRaw := fun _ _ => .ok ()
    fetch := fun _ _ _ _ => .error "unreachable" }

/-- An environment whose remote fetch always throws a not-found error. -/
def envFetchFail : SyncEnv :=
  { accessOk := fun _ => true
    readRaw := fun _ => .success "old"
    writeRaw := fun _ _ => .ok ()
    fetch := fun _ _ _ _ => .error "File not found: one.md in o/r@main" }

/-- A task whose remote path triggers a fetch failure under `env2`. -/
def cfgFail : NormalizedFileSyncConfig :=
  { local_path := "fail.md"
    source_path := "fail.md"
    source := "o/r"
    ref := some "main"
    sourceToken := none }

/-- An environment where fetching `fail.md` throws and every other path
fetches fresh content differing from the local copy. -/
def env2 : SyncEnv :=
  { accessOk := fun _ => true
    readRaw := fun _ => .success "old"
    writeRaw := fun _ _ => .ok ()
    fetch := fun _ sp _ _ =>
      if sp = "fail.md" then .error "boom"
      else .ok { content := "new", sha := "s", resolvedRef := "main" } }

/-- A task carrying its own per-source credential. -/
def cfgTok : NormalizedFileSyncConfig :=
  { local_path := "tok.md"
    source_path := "tok.md"
    source := "o/r"
    ref := none
    sourceToken := some "perSource" }

/-- A failed result used in concrete summaries. -/
def resFail : SyncResult := { config := cfgPlain, status := SyncStatus.failed }

/-- A concrete recursive tree listing with one directory entry. -/
def tree0 : List TreeItem :=
  [{ type := "blob", path := some "docs/z.md" },
   { type := "tree", path := some "docs" },
   { type := "blob", path := some "docs/a.md" }]

/-- A GitHub API where `main` is the only branch, `v1` the only tag, and
`deadbeef` the only commit. -/
def api0 : GithubApi :=
  { reposGetDefaultBranch := fun _ _ _ => .ok "main"
    getRefHeads := fun _ _ r _ => if r = "main" then .ok "headsha" else .error "Not Found"
    getRefTags := fun _ _ r _ => if r = "v1" then .ok "tagsha" else .error "Not Found"
    getCommit := fun _ _ s _ =>
      if s = "deadbeef" then .ok { treeSha := "treesha" } else .error "Not Found"
    getTree := fun _ _ _ _ => .ok tree0
    minimatch := fun p _ => p.endsWith ".md" }

/-! ## Helper lemmas -/

theorem foldl_push_map {α β : Type} (f : α → β) (l : List α) :
    ∀ acc : List β,
    l.foldl (fun a x => a ++ [f x]) acc = acc ++ l.map f := by
  induction l with
  | nil => intro acc; simp
  | cons x xs ih => intro acc; simp [ih]

theorem normalizeSources_go (sources : List SourceConfig) :
    ∀ acc : List NormalizedFileSyncConfig,
    sources.foldl
      (fun normalized source =>
        let afterDefaults :=
          match source.default_files with
          | some files =>
              files.foldl (fun acc filePath => acc ++ [identityConfig source filePath]) normalized
          | none => normalized
        match source.file_pairs with
        | some pairs =>
            pairs.foldl (fun acc file => acc ++ [pairConfig source file]) afterDefaults
        | none => afterDefaults)
      acc = acc ++ specNormalize sources := by
  induction sources with
  | nil => intro acc; simp [specNormalize]
  | cons s rest ih =>
      intro acc
      simp only [List.foldl_cons]
      rw [ih]
      cases hdf : s.default_files <;> cases hfp : s.file_pairs <;>
        simp [specNormalize, hdf, hfp, foldl_push_map, identityConfig, pairConfig,
          List.append_assoc]

/-- C4: `normalize` maps a list of sources to the concatenation, in listed
source order, of one task per file entry, identity entries before
path-pair entries within each source, each in listed order; identity
entries yield `localPath = remotePath = entry`, path-pair entries yield
`localPath = entry.localPath` and `remotePath = entry.remotePath ?? entry.localPath`,
and each task carries its source's repository, ref and per-source
credential — i.e. the implementation agrees with the specification-shaped
normalizer. -/
theorem normalizeSources_spec (sources : List SourceConfig) :
    normalizeSources sources = specNormalize sources := by
  simpa [normalizeSources] using normalizeSources_go sources []

theorem expandGlob_go (lf : ListFilesFn) (gh : String)
    (configs : List NormalizedFileSyncConfig) :
    ∀ acc : List NormalizedFileSyncConfig × List Event,
    configs.foldl
      (fun expanded config =>
        let r := expandOne lf gh config
        (expanded.1 ++ r.1, expanded.2 ++ r.2))
      acc
      = (acc.1 ++ (expandAll lf gh configs).1, acc.2 ++ (expandAll lf gh configs).2) := by
  induction configs with
  | nil => intro acc; simp [expandAll]
  | cons c cs ih =>
      intro acc
      simp only [List.foldl_cons]
      rw [ih]
      simp [expandAll, List.append_assoc]

theorem expandGlobPatterns_eq_expandAll (lf : ListFilesFn) (gh : String)
    (configs : List NormalizedFileSyncConfig) :
    expandGlobPatterns lf configs gh = expandAll lf gh configs := by
  simpa [expandGlobPatterns] using expandGlob_go lf gh configs ([], [])

/-- C1 evaluated at the failing input: a task normalized from a path-pair
entry whose remote path is the glob pattern `docs/*.md` does not reach the
per-file sync step unchanged — glob expansion rewrites it into one task
per matched remote path and its `local_path` (`docs/a.md`) is replaced by
the matched remote paths. -/
theorem pathPair_glob_is_expanded :
    (expandGlobPatterns lfDemo (normalizeSources [pairGlobSource]) "tok").1
      = [{ local_path := "docs/b.md"
           source_path := "docs/b.md"
           source := "octo/boiler"
           ref := none
           sourceToken := none
           expandedFrom := some "docs/*.md" },
         { local_path := "docs/c.md"
           source_path := "docs/c.md"
           source := "octo/boiler"
           ref := none
           sourceToken := none
           expandedFrom := some "docs/*.md" }]
    ∧ (expandGlobPatterns lfDemo (normalizeSources [pairGlobSource]) "tok").1
        ≠ normalizeSources [pairGlobSource] := by
  constructor <;> decide

theorem expandAll_append (lf : ListFilesFn) (gh : String)
    (xs ys : List NormalizedFileSyncConfig) :
    expandAll lf gh (xs ++ ys)
      = ((expandAll lf gh xs).1 ++ (expandAll lf gh ys).1,
         (expandAll lf gh xs).2 ++ (expandAll lf gh ys).2) := by
  induction xs with
  | nil => simp [expandAll]
  | cons x xs ih => simp [expandAll, ih]

/-- C10: when the tree listing for a glob pattern throws (rather than
succeeding with zero matches), the error is caught inside the expansion
step — the original pattern config is kept as a literal task, and the
expansion of the configs before and after it is unaffected; nothing
propagates out (`expandGlobPatterns` is total by construction). -/
theorem expandGlobPatterns_error_keeps_config (lf : ListFilesFn) (gh : String)
    (c : NormalizedFileSyncConfig) (pre post : List NormalizedFileSyncConfig)
    (e : String)
    (hglob : isGlobPattern c.source_path = true)
    (herr : lf ((splitOnSlash c.source).headD "")
        (((splitOnSlash c.source).drop 1).headD "")
        c.source_path c.ref (c.sourceToken.getD gh) = .error e) :
    (expandOne lf gh c).1 = [c]
    ∧ (expandGlobPatterns lf (pre ++ c :: post) gh).1
        = (expandGlobPatterns lf pre gh).1 ++ c :: (expandGlobPatterns lf post gh).1 := by
  have h1 : (expandOne lf gh c).1 = [c] := by
    have herr' := herr
    simp only [List.headD_eq_head?_getD, List.head?_drop] at herr' ⊢
    simp [expandOne, hglob, herr']
  refine ⟨h1, ?_⟩
  simp [expandGlobPatterns_eq_expandAll, expandAll_append, expandAll, h1]

/-- Witness for C10 at a concrete throwing collaborator. -/
theorem expandGlobPatterns_error_keeps_config_witness :
    (expandOne lfErr "t" cfgGlob).1 = [cfgGlob]
    ∧ (expandGlobPatterns lfErr ([cfgPlain] ++ cfgGlob :: [cfgPlain2]) "t").1
        = (expandGlobPatterns lfErr [cfgPlain] "t").1
            ++ cfgGlob :: (expandGlobPatterns lfErr [cfgPlain2] "t").1 :=
  expandGlobPatterns_error_keeps_config lfErr "t" cfgGlob [cfgPlain] [cfgPlain2]
    "boom" (by decide) rfl

/-- C7: for a task whose local path does not exist, with `createMissing`
false, the result is `skipped` with a descriptive reason, and no external
call at all — in particular no fetch — is performed. -/
theorem syncFile_missing_no_fetch (env : SyncEnv) (c : NormalizedFileSyncConfig)
    (ft : String)
    (hex : env.accessOk c.local_path = false) :
    (syncFile env c ft false).1.status = SyncStatus.skipped
    ∧ (syncFile env c ft false).1.error
        = some "Project file does not exist and create-missing is disabled"
    ∧ (syncFile env c ft false).2 = []
    ∧ ∀ s p r tk, Event.fetchCall s p r tk ∉ (syncFile env c ft false).2 := by
  simp [syncFile, fileExists, hex]

/-- Witness for C7 at a concrete environment with no local files. -/
theorem syncFile_missing_no_fetch_witness :
    (syncFile envMissing cfgPlain "t" false).1.status = SyncStatus.skipped
    ∧ (syncFile envMissing cfgPlain "t" false).1.error
        = some "Project file does not exist and create-missing is disabled"
    ∧ (syncFile envMissing cfgPlain "t" false).2 = []
    ∧ ∀ s p r tk, Event.fetchCall s p r tk ∉ (syncFile envMissing cfgPlain "t" false).2 :=
  syncFile_missing_no_fetch envMissing cfgPlain "t" rfl

theorem syncFile_skip_eq (env : SyncEnv) (c : NormalizedFileSyncConfig)
    (ft : String) (cm : Bool) (fr : FetchResult)
    (hex : env.accessOk c.local_path = true)
    (hfetch : env.fetch c.source c.source_path c.ref (c.sourceToken.getD ft) = .ok fr)
    (hread : env.readRaw c.local_path = .success fr.content) :
    syncFile env c ft cm
      = ({ config := c, status := .skipped, resolvedRef := some fr.resolvedRef },
         [Event.fetchCall c.source c.source_path c.ref (c.sourceToken.getD ft),
          Event.readCall c.local_path]) := by
  simp [syncFile, fileExists, hex, hfetch, readFile, hread]

theorem processConfigs_all_identical (env : SyncEnv) (ft : String) (cm ff : Bool) :
    ∀ configs : List NormalizedFileSyncConfig,
    (∀ c' ∈ configs, env.accessOk c'.local_path = true
      ∧ ∃ fr' : FetchResult,
          env.fetch c'.source c'.source_path c'.ref (c'.sourceToken.getD ft) = .ok fr'
          ∧ env.readRaw c'.local_path = .success fr'.content) →
    (∀ r ∈ (processConfigs env configs ft cm ff).1, r.status = SyncStatus.skipped)
    ∧ (∀ p ct, Event.writeCall p ct ∉ (processConfigs env configs ft cm ff).2) := by
  intro configs
  induction configs with
  | nil => intro _; simp [processConfigs]
  | cons c cs ih =>
      intro h
      obtain ⟨hex, fr, hfetch, hread⟩ := h c (by simp)
      have hstep := syncFile_skip_eq env c ft cm fr hex hfetch hread
      have hrest := ih (fun c' hc' => h c' (by simp [hc']))
      simp only [processConfigs, hstep]
      rw [if_neg (by simp)]
      simp only [List.mem_cons, List.mem_append]
      constructor
      · intro r hr
        rcases hr with hr | hr
        · simp [hr]
        · exact hrest.1 r hr
      · intro p ct hmem
        rcases hmem with hmem | hmem
        · simp at hmem
        · exact hrest.2 p ct hmem

theorem buildSummary_hasChanges_false (results : List SyncResult)
    (h : ∀ r ∈ results, r.status = SyncStatus.skipped) :
    (buildSummary results).hasChanges = false := by
  have hu : results.filter (fun r => r.status == SyncStatus.updated) = [] := by
    rw [List.filter_eq_nil_iff]
    intro r hr
    simp [h r hr]
  have hc : results.filter (fun r => r.status == SyncStatus.created) = [] := by
    rw [List.filter_eq_nil_iff]
    intro r hr
    simp [h r hr]
  simp [buildSummary, hu, hc]

/-- C6: a task whose local file exists with content string-equal to the
fetched remote content yields `skipped` and no write event; consequently a
run in which every task is in that situation reports `hasChanges = false`
and performs no write at all (the local bytes are untouched). -/
theorem syncFile_identical_skips (env : SyncEnv) (c : NormalizedFileSyncConfig)
    (ft : String) (cm : Bool) (fr : FetchResult)
    (hex : env.accessOk c.local_path = true)
    (hfetch : env.fetch c.source c.source_path c.ref (c.sourceToken.getD ft) = .ok fr)
    (hread : env.readRaw c.local_path = .success fr.content) :
    (syncFile env c ft cm).1.status = SyncStatus.skipped
    ∧ (∀ p ct, Event.writeCall p ct ∉ (syncFile env c ft cm).2)
    ∧ ∀ (configs : List NormalizedFileSyncConfig) (ff : Bool),
        (∀ c' ∈ configs, env.accessOk c'.local_path = true
          ∧ ∃ fr' : FetchResult,
              env.fetch c'.source c'.source_path c'.ref (c'.sourceToken.getD ft) = .ok fr'
              ∧ env.readRaw c'.local_path = .success fr'.content) →
        (buildSummary (processConfigs env configs ft cm ff).1).hasChanges = false
        ∧ ∀ p ct, Event.writeCall p ct ∉ (processConfigs env configs ft cm ff).2 := by
  have hstep := syncFile_skip_eq env c ft cm fr hex hfetch hread
  refine ⟨by simp [hstep], by simp [hstep], ?_⟩
  intro configs ff hall
  have h := processConfigs_all_identical env ft cm ff configs hall
  exact ⟨buildSummary_hasChanges_false _ h.1, h.2⟩

/-- Witness for C6: a second run against unchanged content skips and
reports no changes. -/
theorem syncFile_identical_skips_witness :
    (syncFile envAllGood cfgPlain "t" true).1.status = SyncStatus.skipped
    ∧ (buildSummary (processConfigs envAllGood [cfgPlain] "t" true false).1).hasChanges = false := by
  have h := syncFile_identical_skips envAllGood cfgPlain "t" true fr0 rfl rfl rfl
  refine ⟨h.1, ?_⟩
  have h2 := h.2.2 [cfgPlain] false ?_
  · exact h2.1
  · intro c' hc'
    simp only [List.mem_singleton] at hc'
    subst hc'
    exact ⟨rfl, fr0, rfl, rfl⟩

/-- C3: a failure thrown while fetching remote content, while reading the
local file (other than not-found), or while writing, is caught inside the
per-task step and recorded as a `failed` result whose `error` field is the
thrown message verbatim; `syncFile` (and hence the orchestrator loop) is
total, so no such failure ever propagates. -/
theorem syncFile_catches_failures (env : SyncEnv) (c : NormalizedFileSyncConfig)
    (ft : String) (cm : Bool) :
    (∀ m, (env.accessOk c.local_path = true ∨ cm = true) →
      env.fetch c.source c.source_path c.ref (c.sourceToken.getD ft) = .error m →
      (syncFile env c ft cm).1.status = SyncStatus.failed
        ∧ (syncFile env c ft cm).1.error = some m)
    ∧ (∀ m fr, env.accessOk c.local_path = true →
        env.fetch c.source c.source_path c.ref (c.sourceToken.getD ft) = .ok fr →
        env.readRaw c.local_path = .ioError m →
        (syncFile env c ft cm).1.status = SyncStatus.failed
          ∧ (syncFile env c ft cm).1.error = some m)
    ∧ (∀ m fr v, env.accessOk c.local_path = true →
        env.fetch c.source c.source_path c.ref (c.sourceToken.getD ft) = .ok fr →
        env.readRaw c.local_path = .success v → v ≠ fr.content →
        env.writeRaw c.local_path fr.content = .error m →
        (syncFile env c ft cm).1.status = SyncStatus.failed
          ∧ (syncFile env c ft cm).1.error = some m)
    ∧ (∀ m fr, env.accessOk c.local_path = false → cm = true →
        env.fetch c.source c.source_path c.ref (c.sourceToken.getD ft) = .ok fr →
        env.writeRaw c.local_path fr.content = .error m →
        (syncFile env c ft cm).1.status = SyncStatus.failed
          ∧ (syncFile env c ft cm).1.error = some m) := by
  refine ⟨?_, ?_, ?_, ?_⟩
  · intro m hguard hf
    rcases hguard with hex | hcm
    · constructor <;> simp [syncFile, fileExists, hex, hf]
    · cases hA : env.accessOk c.local_path <;>
        constructor <;> simp [syncFile, fileExists, hA, hcm, hf]
  · intro m fr hex hf hr
    constructor <;> simp [syncFile, fileExists, hex, hf, readFile, hr]
  · intro m fr v hex hf hr hneq hw
    constructor <;> simp [syncFile, fileExists, hex, hf, readFile, hr, hneq, hw]
  · intro m fr hex hcm hf hw
    constructor <;> simp [syncFile, fileExists, hex, hcm, hf, hw]

/-- Witness for C3 at an environment whose fetch throws a not-found. -/
theorem syncFile_catches_failures_witness :
    (syncFile envFetchFail cfgPlain "t" true).1.status = SyncStatus.failed
    ∧ (syncFile envFetchFail cfgPlain "t" true).1.error
        = some "File not found: one.md in o/r@main" :=
  (syncFile_catches_failures envFetchFail cfgPlain "t" true).1
    "File not found: one.md in o/r@main" (Or.inl rfl) rfl

theorem syncFile_trace_shape (env : SyncEnv) (c : NormalizedFileSyncConfig)
    (ft : String) (cm : Bool)
    (hguard : env.accessOk c.local_path = true ∨ cm = true) :
    ∃ tail, (syncFile env c ft cm).2
        = Event.fetchCall c.source c.source_path c.ref (c.sourceToken.getD ft) :: tail
      ∧ ∀ s p r tk, Event.fetchCall s p r tk ∉ tail := by
  simp only [syncFile, fileExists]
  rw [if_neg (by rcases hguard with h | h <;> simp [h])]
  cases hf : env.fetch c.source c.source_path c.ref (c.sourceToken.getD ft) with
  | error m => exact ⟨[], by simp, by simp⟩
  | ok fr =>
      by_cases hA : env.accessOk c.local_path = true
      · cases hr : env.readRaw c.local_path with
        | success v =>
            by_cases hv : v = fr.content
            · exact ⟨[Event.readCall c.local_path],
                by simp [hA, readFile, hr, hv], by simp⟩
            · cases hw : env.writeRaw c.local_path fr.content with
              | error m =>
                  exact ⟨[Event.readCall c.local_path,
                      Event.writeCall c.local_path fr.content],
                    by simp [hA, readFile, hr, hv, hw], by simp⟩
              | ok u =>
                  exact ⟨[Event.readCall c.local_path,
                      Event.writeCall c.local_path fr.content],
                    by simp [hA, readFile, hr, hv, hw], by simp⟩
        | enoent =>
            cases hw : env.writeRaw c.local_path fr.content with
            | error m =>
                exact ⟨[Event.readCall c.local_path,
                    Event.writeCall c.local_path fr.content],
                  by simp [hA, readFile, hr, hw], by simp⟩
            | ok u =>
                exact ⟨[Event.readCall c.local_path,
                    Event.writeCall c.local_path fr.content],
                  by simp [hA, readFile, hr, hw], by simp⟩
        | ioError m =>
            exact ⟨[Event.readCall c.local_path],
              by simp [hA, readFile, hr], by simp⟩
      · have hA' : env.accessOk c.local_path = false := by simpa using hA
        cases hw : env.writeRaw c.local_path fr.content with
        | error m =>
            exact ⟨[Event.writeCall c.local_path fr.content],
              by simp [hA', hw], by simp⟩
        | ok u =>
            exact ⟨[Event.writeCall c.local_path fr.content],
              by simp [hA', hw], by simp⟩

theorem expandOne_glob_events (lf : ListFilesFn) (gh : String)
    (c : NormalizedFileSyncConfig)
    (hglob : isGlobPattern c.source_path = true) :
    (expandOne lf gh c).2
      = [Event.listGlobCall ((splitOnSlash c.source).headD "")
          (((splitOnSlash c.source).drop 1).headD "")
          c.source_path c.ref (c.sourceToken.getD gh)] := by
  unfold expandOne
  rw [if_neg (by simp [hglob])]
  rcases hl : lf ((splitOnSlash c.source).headD "")
      (((splitOnSlash c.source).drop 1).headD "")
      c.source_path c.ref (c.sourceToken.getD gh) with e | fs
  · simp only [List.headD_eq_head?_getD, List.head?_drop] at hl
    simp [hl]
  · rcases fs with _ | ⟨f, fs⟩ <;>
      (simp only [List.headD_eq_head?_getD, List.head?_drop] at hl; simp [hl])

/-- C8: the credential that reaches the per-task fetch call is the task's
per-source credential when configured, else the run's default; the same
fallback governs the credential used for the glob tree listing. -/
theorem effective_credential (env : SyncEnv) (c : NormalizedFileSyncConfig)
    (ft : String) (cm : Bool) (lf : ListFilesFn) (gh : String) :
    ((env.accessOk c.local_path = true ∨ cm = true) →
      Event.fetchCall c.source c.source_path c.ref (c.sourceToken.getD ft)
          ∈ (syncFile env c ft cm).2
      ∧ ∀ s p r tk, Event.fetchCall s p r tk ∈ (syncFile env c ft cm).2 →
          tk = c.sourceToken.getD ft)
    ∧ (isGlobPattern c.source_path = true →
        (expandOne lf gh c).2
          = [Event.listGlobCall ((splitOnSlash c.source).headD "")
              (((splitOnSlash c.source).drop 1).headD "")
              c.source_path c.ref (c.sourceToken.getD gh)]) := by
  constructor
  · intro hguard
    obtain ⟨tail, hEq, hNone⟩ := syncFile_trace_shape env c ft cm hguard
    constructor
    · rw [hEq]; exact List.mem_cons_self _ _
    · intro s p r tk hmem
      rw [hEq] at hmem
      rcases List.mem_cons.mp hmem with h | h
      · simpa using congrArg (fun ev =>
          match ev with
          | Event.fetchCall _ _ _ tk => tk
          | _ => tk) h
      · exact absurd h (hNone s p r tk)
  · exact expandOne_glob_events lf gh c

/-- Witness for C8: the per-source token reaches the fetch and the glob
listing call. -/
theorem effective_credential_witness :
    Event.fetchCall cfgTok.source cfgTok.source_path cfgTok.ref "perSource"
        ∈ (syncFile envAllGood cfgTok "fallback" true).2
    ∧ (expandOne lfErr "g" cfgGlob).2
        = [Event.listGlobCall "o" "r" "*.md" (some "main") "g"] := by
  have h := effective_credential envAllGood cfgTok "fallback" true lfErr "g"
  have h2 := effective_credential envAllGood cfgGlob "fallback" true lfErr "g"
  constructor
  · simpa [cfgTok] using (h.1 (Or.inl rfl)).1
  · exact (h2.2 (by decide)).trans (by decide)

theorem processConfigs_length_no_failfast (env : SyncEnv) (tok : String) (cm : Bool) :
    ∀ configs, ((processConfigs env configs tok cm false).1).length = configs.length := by
  intro configs
  induction configs with
  | nil => simp [processConfigs]
  | cons c cs ih => simp [processConfigs, ih]

theorem processConfigs_failfast_stops (env : SyncEnv) (tok : String) (cm : Bool) :
    ∀ (pre : List NormalizedFileSyncConfig) (c : NormalizedFileSyncConfig)
      (post : List NormalizedFileSyncConfig),
    (∀ c' ∈ pre, (syncFile env c' tok cm).1.status ≠ SyncStatus.failed) →
    (syncFile env c tok cm).1.status = SyncStatus.failed →
    (processConfigs env (pre ++ c :: post) tok cm true).1
      = pre.map (fun c' => (syncFile env c' tok cm).1) ++ [(syncFile env c tok cm).1] := by
  intro pre
  induction pre with
  | nil =>
      intro c post _ hc
      simp [processConfigs, hc]
  | cons p ps ih =>
      intro c post hpre hc
      have hp := hpre p (by simp)
      simp only [List.cons_append, processConfigs]
      rw [if_neg (by simp [hp])]
      simp [ih c post (fun c' hc' => hpre c' (by simp [hc'])), hc]

/-- C2: with `failFast` on, processing stops right after the first failed
result — that result is the last one in the run, earlier non-failing tasks
all appear, later tasks are not attempted and do not count toward
`total`, and exactly one result is `failed`; with `failFast` off every
task is processed. -/
theorem failFast_stops_after_first_failure (env : SyncEnv) (tok : String) (cm : Bool)
    (pre post : List NormalizedFileSyncConfig) (c : NormalizedFileSyncConfig)
    (hpre : ∀ c' ∈ pre, (syncFile env c' tok cm).1.status ≠ SyncStatus.failed)
    (hc : (syncFile env c tok cm).1.status = SyncStatus.failed) :
    (processConfigs env (pre ++ c :: post) tok cm true).1
      = pre.map (fun c' => (syncFile env c' tok cm).1) ++ [(syncFile env c tok cm).1]
    ∧ (buildSummary (processConfigs env (pre ++ c :: post) tok cm true).1).total
        = pre.length + 1
    ∧ (buildSummary (processConfigs env (pre ++ c :: post) tok cm true).1).failed.length = 1
    ∧ (buildSummary (processConfigs env (pre ++ c :: post) tok cm false).1).total
        = pre.length + 1 + post.length := by
  have hlist := processConfigs_failfast_stops env tok cm pre c post hpre hc
  refine ⟨hlist, ?_, ?_, ?_⟩
  · simp [buildSummary, hlist]
  · have hnil : (pre.map (fun c' => (syncFile env c' tok cm).1)).filter
        (fun r => r.status == SyncStatus.failed) = [] := by
      rw [List.filter_eq_nil_iff]
      intro r hr
      obtain ⟨c', hc', rfl⟩ := List.mem_map.mp hr
      simp [hpre c' hc']
    simp [buildSummary, hlist, List.filter_append, hnil, hc]
  · simp [buildSummary, processConfigs_length_no_failfast]
    omega

/-- Witness for C2: three tasks whose first fails. -/
theorem failFast_stops_after_first_failure_witness :
    (buildSummary (processConfigs env2 ([] ++ cfgFail :: [cfgPlain, cfgPlain2]) "t" true true).1).total = 1
    ∧ (buildSummary (processConfigs env2 ([] ++ cfgFail :: [cfgPlain, cfgPlain2]) "t" true true).1).failed.length = 1
    ∧ (buildSummary (processConfigs env2 ([] ++ cfgFail :: [cfgPlain, cfgPlain2]) "t" true false).1).total = 3 := by
  have h := failFast_stops_after_first_failure env2 "t" true [] [cfgPlain, cfgPlain2]
    cfgFail (by simp) (by decide)
  exact ⟨by simpa using h.2.1, h.2.2.1, by simpa using h.2.2.2⟩

theorem status_filter_length_partition (results : List SyncResult) :
    (results.filter fun r => r.status == SyncStatus.updated).length
      + (results.filter fun r => r.status == SyncStatus.created).length
      + (results.filter fun r => r.status == SyncStatus.skipped).length
      + (results.filter fun r => r.status == SyncStatus.failed).length
      = results.length := by
  induction results with
  | nil => simp
  | cons r rs ih =>
      cases hs : r.status <;> simp [List.filter_cons, hs] <;> omega

/-- C5: the summary's `total` is the number of results; the four status
lists partition the results by status (lengths sum to `total` and every
member carries the matching status); `hasChanges` holds iff something was
updated or created; `allFailed` holds iff every result failed and there
was at least one, so an empty run never reports `allFailed`. -/
theorem buildSummary_invariants (results : List SyncResult) :
    (buildSummary results).total = results.length
    ∧ (buildSummary results).updated.length + (buildSummary results).created.length
        + (buildSummary results).skipped.length + (buildSummary results).failed.length
        = (buildSummary results).total
    ∧ (∀ r ∈ (buildSummary results).updated, r.status = SyncStatus.updated)
    ∧ (∀ r ∈ (buildSummary results).created, r.status = SyncStatus.created)
    ∧ (∀ r ∈ (buildSummary results).skipped, r.status = SyncStatus.skipped)
    ∧ (∀ r ∈ (buildSummary results).failed, r.status = SyncStatus.failed)
    ∧ ((buildSummary results).hasChanges = true
        ↔ 0 < (buildSummary results).updated.length + (buildSummary results).created.length)
    ∧ ((buildSummary results).allFailed = true
        ↔ ((buildSummary results).failed.length = (buildSummary results).total
            ∧ 0 < (buildSummary results).total)) := by
  refine ⟨rfl, ?_, ?_, ?_, ?_, ?_, ?_, ?_⟩
  · simpa [buildSummary] using status_filter_length_partition results
  · intro r hr
    simp only [buildSummary] at hr
    simpa using (List.mem_filter.mp hr).2
  · intro r hr
    simp only [buildSummary] at hr
    simpa using (List.mem_filter.mp hr).2
  · intro r hr
    simp only [buildSummary] at hr
    simpa using (List.mem_filter.mp hr).2
  · intro r hr
    simp only [buildSummary] at hr
    simpa using (List.mem_filter.mp hr).2
  · simp only [buildSummary, Bool.or_eq_true, decide_eq_true_eq]
    omega
  · simp only [buildSummary, Bool.and_eq_true, decide_eq_true_eq, beq_iff_eq]

/-- Witness for C5: a single failed result makes `allFailed` true and its
failed list carries status `failed`. -/
theorem buildSummary_invariants_witness :
    resFail.status = SyncStatus.failed ∧ (buildSummary [resFail]).allFailed = true := by
  have h := buildSummary_invariants [resFail]
  exact ⟨h.2.2.2.2.2.1 resFail (by decide), h.2.2.2.2.2.2.2.mpr (by decide)⟩

/-- C9: the ref used for glob expansion is resolved as a branch first;
only when the branch lookup fails is it tried as a tag; only when that
also fails is it treated as a raw commit (whose tree sha is used) — and a
ref failing branch lookup but succeeding as a tag yields exactly the tree
listing at the tag's sha. -/
theorem ref_fallback_chain (api : GithubApi) (cache : BranchCache)
    (owner repo pat r token : String) :
    (∀ sha, api.getRefHeads owner repo r token = .ok sha →
      (listFilesMatchingGlob api cache owner repo pat (some r) token).1
        = listTreeMatches api owner repo pat sha token)
    ∧ (∀ e sha, api.getRefHeads owner repo r token = .error e →
        api.getRefTags owner repo r token = .ok sha →
        (listFilesMatchingGlob api cache owner repo pat (some r) token).1
          = listTreeMatches api owner repo pat sha token)
    ∧ (∀ e1 e2 commit, api.getRefHeads owner repo r token = .error e1 →
        api.getRefTags owner repo r token = .error e2 →
        api.getCommit owner repo r token = .ok commit →
        (listFilesMatchingGlob api cache owner repo pat (some r) token).1
          = listTreeMatches api owner repo pat commit.treeSha token) := by
  refine ⟨?_, ?_, ?_⟩
  · intro sha hh
    have hres : resolveTreeSha api owner repo r token = .ok sha := by
      simp [resolveTreeSha, hh]
    cases hl : listTreeMatches api owner repo pat sha token with
    | error e => simp [listFilesMatchingGlob, hres, hl]
    | ok fs => simp [listFilesMatchingGlob, hres, hl]
  · intro e sha hh ht
    have hres : resolveTreeSha api owner repo r token = .ok sha := by
      simp [resolveTreeSha, hh, ht]
    cases hl : listTreeMatches api owner repo pat sha token with
    | error e2 => simp [listFilesMatchingGlob, hres, hl]
    | ok fs => simp [listFilesMatchingGlob, hres, hl]
  · intro e1 e2 commit hh ht hcmt
    have hres : resolveTreeSha api owner repo r token = .ok commit.treeSha := by
      simp [resolveTreeSha, hh, ht, hcmt]
    cases hl : listTreeMatches api owner repo pat commit.treeSha token with
    | error e3 => simp [listFilesMatchingGlob, hres, hl]
    | ok fs => simp [listFilesMatchingGlob, hres, hl]

/-- Witness for C9: `v1` fails as a branch and resolves as a tag. -/
theorem ref_fallback_chain_witness :
    (listFilesMatchingGlob api0 [] "o" "r" "docs/*.md" (some "v1") "t").1
      = listTreeMatches api0 "o" "r" "docs/*.md" "tagsha" "t" :=
  (ref_fallback_chain api0 [] "o" "r" "docs/*.md" "v1" "t").2.1 "Not Found" "tagsha" rfl rfl

end BoilerplateSync
